import Mathlib

/-!
# LinearTopology.cc: MAC access delay correlator, statistics and traffic generator

Shallow embedding of the trace callbacks (`MacTxCallback`, `PhyTxBeginCallback`,
`PhyTxEndCallback`), of the end-of-run statistics computed in `main`, and of the
self-rescheduling `BroadcastPacket` generator of `src/LinearTopology.cc`.

Conventions of the embedding.
* An `ns3::Time` is its signed 64-bit tick count (nanoseconds at the default
  resolution), an `Int` here; `operator-` on it is 64-bit subtraction (`wrap64`).
* `std::map<uint32_t, Time>` is a key-ordered association list; `operator[]`
  default-inserts `Time()` (zero ticks) for a missing key.
* `double` arithmetic is taken over exact rationals.
* The global variables are threaded explicitly as a record `Globals`;
  `Simulator::Now()` is an explicit argument of the callbacks that read it.
-/

namespace LinearTopology

/-! ## Time and the timestamp maps -/

/-- Reduction of an integer to the signed 64-bit range (two's complement). -/
def wrap64 (x : Int) : Int :=
  (x + 9223372036854775808) % 18446744073709551616 - 9223372036854775808

/-- The `operator-` of `Time`: `Time(lhs.m_data - rhs.m_data)` on 64-bit ticks. -/
def timeSub (lhs rhs : Int) : Int := wrap64 (lhs - rhs)

/-- A value `Simulator::Now()` can return: a non-negative 64-bit tick count. -/
def IsNow (t : Int) : Prop := 0 ≤ t ∧ t < 9223372036854775808

instance instDecidableIsNow (t : Int) : Decidable (IsNow t) := by
  unfold IsNow; infer_instance

/-- Contents of a `std::map<uint32_t, Time>`: entries in increasing key order. -/
abbrev TimeMap := List (Nat × Int)

/-- Lookup of a key (`std::map::find`): the mapped time, if the key has an entry. -/
def mapFind : TimeMap → Nat → Option Int
  | [], _ => none
  | (k', v) :: rest, k => if k = k' then some v else mapFind rest k

/-- The statement `m[k] = v`: overwrite the entry of `k`, or create it in key order. -/
def mapAssign : TimeMap → Nat → Int → TimeMap
  | [], k, v => [(k, v)]
  | (k', v') :: rest, k, v =>
    if k < k' then (k, v) :: (k', v') :: rest
    else if k = k' then (k, v) :: rest
    else (k', v') :: mapAssign rest k v

/-- The expression `m[k]` read as a value: returns the mapped time and the map
after the access; a missing key is first inserted with `Time()`, zero ticks. -/
def mapIndex (m : TimeMap) (k : Nat) : Int × TimeMap :=
  match mapFind m k with
  | some v => (v, m)
  | none => (0, mapAssign m k 0)

/-! ## Correlator state and callbacks (lines 17-39) -/

/-- One line written by `NS_LOG_UNCOND` in `PhyTxEndCallback`:
"Packet <uid> took <micros>us". -/
structure LogLine where
  uid : Nat
  micros : Int
  deriving DecidableEq, Repr

/-- The file-scope variables of the correlator, with the log they write to. -/
structure Globals where
  g_macTxTimeMap : TimeMap
  g_phyTxBeginTimeMap : TimeMap
  g_macAccessDelays : List Int
  logged : List LogLine
  deriving DecidableEq, Repr

/-- State at program start: empty maps, empty sample vector, nothing logged. -/
def Globals.empty : Globals := ⟨[], [], [], []⟩

/-- `Time::GetMicroSeconds` at nanosecond resolution: truncating division by 1000. -/
def GetMicroSeconds (d : Int) : Int := Int.tdiv d 1000

/-- `MacTxCallback(packet)` run when the clock reads `now`; `pid` is the
`uint32_t` map key taken from `packet->GetUid()`. -/
def MacTxCallback (g : Globals) (pid : Nat) (now : Int) : Globals :=
  { g with g_macTxTimeMap := mapAssign g.g_macTxTimeMap pid now }

/-- `PhyTxBeginCallback(packet, txPowerW)` run when the clock reads `now`. -/
def PhyTxBeginCallback (g : Globals) (pid : Nat) (_txPowerW : ℚ) (now : Int) : Globals :=
  { g with g_phyTxBeginTimeMap := mapAssign g.g_phyTxBeginTimeMap pid now }

/-- `PhyTxEndCallback(packet)`: reads both maps with `operator[]`, pushes the
difference and logs it. The clock is not read. -/
def PhyTxEndCallback (g : Globals) (pid : Nat) : Globals :=
  let start := mapIndex g.g_macTxTimeMap pid
  let fin := mapIndex g.g_phyTxBeginTimeMap pid
  let delay := timeSub fin.1 start.1
  { g_macTxTimeMap := start.2
    g_phyTxBeginTimeMap := fin.2
    g_macAccessDelays := g.g_macAccessDelays ++ [delay]
    logged := g.logged ++ [⟨pid, GetMicroSeconds delay⟩] }

/-- A trace notification delivered by the framework to one of the three hooks. -/
inductive Notification where
  | MacTx (pid : Nat)
  | PhyTxBegin (pid : Nat) (txPowerW : ℚ)
  | PhyTxEnd (pid : Nat)
  deriving DecidableEq, Repr

/-- Delivery of one notification while the simulated clock reads `now`. -/
def deliver (g : Globals) (n : Notification) (now : Int) : Globals :=
  match n with
  | .MacTx pid => MacTxCallback g pid now
  | .PhyTxBegin pid txPowerW => PhyTxBeginCallback g pid txPowerW now
  | .PhyTxEnd pid => PhyTxEndCallback g pid

/-- Delivery of a whole sequence of timed notifications, in order. -/
def runTrace (g : Globals) : List (Notification × Int) → Globals
  | [] => g
  | (n, now) :: rest => runTrace (deliver g n now) rest

/-! ## End-of-run statistics (lines 207-220) -/

/-- `Time::GetDouble`: the raw tick count converted to `double`. -/
def GetDouble (d : Int) : ℚ := (d : ℚ)

/-- The accumulation loop `for (Time d : g_macAccessDelays) sumDelays += d.GetDouble();`
started from `sumDelays = 0.0`. -/
def sumDelays (delays : List Int) : ℚ :=
  delays.foldl (fun acc d => acc + GetDouble d) 0

/-- The variable `meanDelaySec` after lines 212-216. -/
def meanDelaySec (delays : List Int) : ℚ :=
  if !delays.isEmpty then sumDelays delays / (delays.length : ℚ) else 0

/-- The value printed after "Number of transmitted packets: ". -/
def numberOfTransmittedPackets (delays : List Int) : Nat := delays.length

/-- The two figures of the statistics block: (count, mean). -/
def summary (delays : List Int) : Nat × ℚ :=
  (numberOfTransmittedPackets delays, meanDelaySec delays)

/-- Number of `PhyTxEnd` notifications in a trace. -/
def countPhyTxEnd : List (Notification × Int) → Nat
  | [] => 0
  | (.PhyTxEnd _, _) :: rest => countPhyTxEnd rest + 1
  | _ :: rest => countPhyTxEnd rest

/-! ## Traffic generator and the pending-event set (lines 54-70, 169-177) -/

/-- A `Ptr<Socket>`, identified by the node it was created on (line 156). -/
structure Socket where
  node : Nat
  deriving DecidableEq, Repr

/-- Handle of a `Ptr<ExponentialRandomVariable>`. -/
abbrev RandRef := Nat

/-- Services of the simulation framework used by the generator. `Send k s n` is
the value returned by the `k`-th call of `Send` overall (on socket `s`, for a
packet of `n` bytes); `GetValue k r` is the value of the `k`-th random draw
overall (taken from `r`); `GetValueRange` is the two-argument overload. -/
structure Framework where
  Seconds : ℚ → Int
  GetSeconds : Int → ℚ
  Send : Nat → Socket → Nat → Int
  GetValue : Nat → RandRef → ℚ
  GetValueRange : Nat → RandRef → ℚ → ℚ → ℚ

/-- A pending event: one call `Simulator::Schedule(delay, &BroadcastPacket, socket,
rand, packetSize)` made when the clock read `scheduledAt`. -/
structure Event where
  scheduledAt : Int
  delay : Int
  socket : Socket
  rand : RandRef
  packetSize : Nat
  deriving DecidableEq, Repr

/-- A line written to `std::cout` by `BroadcastPacket`:
"Node <nodeId> sent a packet at <seconds> s". -/
structure SentLine where
  nodeId : Nat
  seconds : ℚ
  deriving DecidableEq, Repr

/-- Simulator state seen by the generator: clock, pending-event set, standard
output, and the numbers of `Send` calls and random draws made so far. -/
structure Sim where
  now : Int
  pending : List Event
  stdout : List SentLine
  sends : Nat
  draws : Nat
  deriving DecidableEq, Repr

/-- The call `Simulator::Schedule(delay, &BroadcastPacket, socket, rand, packetSize)`:
insertion of one event into the pending set. -/
def Schedule (sim : Sim) (delay : Int) (socket : Socket) (rand : RandRef)
    (packetSize : Nat) : Sim :=
  { sim with pending := sim.pending ++ [⟨sim.now, delay, socket, rand, packetSize⟩] }

/-- The function `BroadcastPacket(socket, rand, packetSize)`: sends (the value
returned by `Send` is discarded), prints one line, draws the next interval and
schedules itself. -/
def BroadcastPacket (fw : Framework) (sim : Sim) (socket : Socket) (rand : RandRef)
    (packetSize : Nat) : Sim :=
  let _sendResult := fw.Send sim.sends socket packetSize
  let nodeId := socket.node
  let line : SentLine := ⟨nodeId, fw.GetSeconds sim.now⟩
  let nextInterval := fw.GetValue sim.draws rand
  Schedule
    { sim with sends := sim.sends + 1, stdout := sim.stdout ++ [line], draws := sim.draws + 1 }
    (fw.Seconds nextInterval) socket rand packetSize

/-- The vector `sendSockets` built by the loop of lines 154-162 over `n` nodes. -/
def sendSockets (n : Nat) : List Socket := (List.range n).map Socket.mk

/-- The loop of lines 169-177: one first event per socket, at a drawn start delay. -/
def scheduleFirst (fw : Framework) (rand : RandRef) (packetSize : Nat) :
    Sim → List Socket → Sim
  | sim, [] => sim
  | sim, socket :: rest =>
    let startDelay := fw.GetValueRange sim.draws rand 0 1
    scheduleFirst fw rand packetSize
      (Schedule { sim with draws := sim.draws + 1 } (fw.Seconds startDelay) socket rand packetSize)
      rest

/-- Simulator state when `main` reaches `Simulator::Run()`, for `n` nodes. -/
def mainSetup (fw : Framework) (n : Nat) (packetSize : Nat) : Sim :=
  scheduleFirst fw 0 packetSize ⟨0, [], [], 0, 0⟩ (sendSockets n)

/-- Execution of the pending event at position `i`: it leaves the pending set, the
clock moves to its firing time and its action runs. A position past the end
executes nothing. -/
def fire (fw : Framework) (sim : Sim) (i : Nat) : Sim :=
  match sim.pending.get? i with
  | none => sim
  | some e =>
    BroadcastPacket fw
      { sim with now := e.scheduledAt + e.delay, pending := sim.pending.eraseIdx i }
      e.socket e.rand e.packetSize

/-- Execution of a sequence of events, each named by its position in the pending
set at the moment it is taken. -/
def runEvents (fw : Framework) (sim : Sim) : List Nat → Sim
  | [] => sim
  | i :: rest => runEvents fw (fire fw sim i) rest

/-- Number of pending events of the generator that owns `socket`. -/
def pendingFor (sim : Sim) (socket : Socket) : Nat :=
  sim.pending.countP (fun e => e.socket = socket)

/-! ## Trace conditions used in statements -/

/-- Recorded time of `pid`, read the way `operator[]` reads it: zero if absent. -/
def findD (m : TimeMap) (pid : Nat) : Int := (mapFind m pid).getD 0

/-- Clock discipline of a trace: every notification time is a clock reading and
is not earlier than the one before it (`t0` is the reading at the start). -/
def clockReadings : Int → List (Notification × Int) → Bool
  | _, [] => true
  | t0, (_, t) :: rest =>
    decide (t0 ≤ t) && decide (t < 9223372036854775808) && clockReadings t rest

/-- Lifecycle order of a trace: at every `PhyTxEnd(pid)`, the latest earlier
`MacTx(pid)`, if there is one, has been followed by a `PhyTxBegin(pid)`. The list
holds the pids whose latest `MacTx` still waits for its `PhyTxBegin`. -/
def beginFollowsEnqueue : List Nat → List (Notification × Int) → Bool
  | _, [] => true
  | w, (.MacTx pid, _) :: rest => beginFollowsEnqueue (pid :: w) rest
  | w, (.PhyTxBegin pid _, _) :: rest =>
    beginFollowsEnqueue (w.filter (fun q => q != pid)) rest
  | w, (.PhyTxEnd pid, _) :: rest => !(w.contains pid) && beginFollowsEnqueue w rest

/-- A concrete framework for evaluating the generator: nanosecond ticks, every
`Send` returning `sendResult`, every interval drawn being half a second. -/
def exampleFramework (sendResult : Int) : Framework where
  Seconds := fun x => Int.floor (x * 1000000000)
  GetSeconds := fun t => (t : ℚ) / 1000000000
  Send := fun _ _ _ => sendResult
  GetValue := fun _ _ => 1 / 2
  GetValueRange := fun _ _ _ _ => 0

/-- Invariant of the correlator along a trace that respects the clock and the
lifecycle order: `t0` is the latest clock reading, `w` the pids whose latest
`MacTx` still waits for its `PhyTxBegin`. -/
structure TraceInv (g : Globals) (w : List Nat) (t0 : Int) : Prop where
  clock : IsNow t0
  mac_le : ∀ pid v, mapFind g.g_macTxTimeMap pid = some v → 0 ≤ v ∧ v ≤ t0
  phy_le : ∀ pid v, mapFind g.g_phyTxBeginTimeMap pid = some v → 0 ≤ v ∧ v ≤ t0
  ordered : ∀ pid, pid ∉ w → findD g.g_macTxTimeMap pid ≤ findD g.g_phyTxBeginTimeMap pid
  nonneg : ∀ d ∈ g.g_macAccessDelays, 0 ≤ d

/-! ## Lemmas on the maps and on 64-bit subtraction -/

theorem wrap64_of_range (x : Int) (hlo : -9223372036854775808 ≤ x)
    (hhi : x < 9223372036854775808) : wrap64 x = x := by
  unfold wrap64
  omega

theorem timeSub_of_now (a b : Int) (ha : IsNow a) (hb : IsNow b) :
    timeSub a b = a - b := by
  obtain ⟨ha0, ha1⟩ := ha
  obtain ⟨hb0, hb1⟩ := hb
  unfold timeSub
  apply wrap64_of_range <;> omega

theorem mapFind_mapAssign_self (m : TimeMap) (k : Nat) (v : Int) :
    mapFind (mapAssign m k v) k = some v := by
  induction m with
  | nil => simp [mapAssign, mapFind]
  | cons hd tl ih =>
    obtain ⟨k', v'⟩ := hd
    unfold mapAssign
    by_cases h1 : k < k'
    · simp [h1, mapFind]
    · by_cases h2 : k = k'
      · simp [h2, mapFind]
      · simp [h1, h2, mapFind, ih]

theorem mapFind_mapAssign_ne (m : TimeMap) (k q : Nat) (v : Int) (hq : q ≠ k) :
    mapFind (mapAssign m k v) q = mapFind m q := by
  induction m with
  | nil => simp [mapAssign, mapFind, hq]
  | cons hd tl ih =>
    obtain ⟨k', v'⟩ := hd
    unfold mapAssign
    by_cases h1 : k < k'
    · simp [h1, mapFind, hq]
    · by_cases h2 : k = k'
      · subst h2
        simp [mapFind, hq]
      · simp [h1, h2, mapFind, ih]

theorem mapIndex_fst (m : TimeMap) (k : Nat) : (mapIndex m k).1 = findD m k := by
  unfold mapIndex findD
  cases h : mapFind m k <;> simp

theorem mapFind_mapIndex_self (m : TimeMap) (k : Nat) :
    mapFind (mapIndex m k).2 k = some (findD m k) := by
  unfold mapIndex findD
  cases h : mapFind m k
  · simp [mapFind_mapAssign_self]
  · simp [h]

theorem mapFind_mapIndex_ne (m : TimeMap) (k q : Nat) (hq : q ≠ k) :
    mapFind (mapIndex m k).2 q = mapFind m q := by
  unfold mapIndex
  cases h : mapFind m k
  · simp [mapFind_mapAssign_ne _ _ _ _ hq]
  · simp

theorem findD_mapIndex (m : TimeMap) (k q : Nat) :
    findD (mapIndex m k).2 q = findD m q := by
  by_cases hq : q = k
  · subst hq
    unfold findD
    rw [mapFind_mapIndex_self]
    rfl
  · unfold findD
    rw [mapFind_mapIndex_ne _ _ _ hq]

theorem sumDelays_eq_sum (delays : List Int) :
    sumDelays delays = (delays.map (fun d : Int => (d : ℚ))).sum := by
  unfold sumDelays
  have key : ∀ (l : List Int) (acc : ℚ),
      l.foldl (fun acc d => acc + GetDouble d) acc
        = acc + (l.map (fun d : Int => (d : ℚ))).sum := by
    intro l
    induction l with
    | nil => intro acc; simp
    | cons hd tl ih =>
      intro acc
      simp only [List.foldl_cons, List.map_cons, List.sum_cons]
      rw [ih]
      simp only [GetDouble]
      ring
  simpa using key delays 0


theorem runTrace_delays_length (trace : List (Notification × Int)) (g : Globals) :
    (runTrace g trace).g_macAccessDelays.length
      = g.g_macAccessDelays.length + countPhyTxEnd trace := by
  induction trace generalizing g with
  | nil => simp [runTrace, countPhyTxEnd]
  | cons hd tl ih =>
    obtain ⟨n, now⟩ := hd
    cases n with
    | MacTx pid => simp [runTrace, countPhyTxEnd, ih, deliver, MacTxCallback]
    | PhyTxBegin pid w => simp [runTrace, countPhyTxEnd, ih, deliver, PhyTxBeginCallback]
    | PhyTxEnd pid =>
      simp only [runTrace, countPhyTxEnd, ih, deliver, PhyTxEndCallback, List.length_append,
        List.length_singleton]
      omega

/-! ## Correlator: writes, completeness, growth of the sample sequence -/

/-- C9. `MacTxCallback(pid)` at time `t` sets the enqueue time of `pid` to `t`
(created or overwritten) and changes nothing else: other pids' enqueue times, the
PHY-begin map and the samples are as before. `PhyTxBeginCallback(pid)` does the
same on the PHY-begin map, and its `txPowerW` argument has no effect. -/
theorem timestamp_writes_frame (g : Globals) (pid : Nat) (t : Int) (txPowerW : ℚ) :
    (mapFind (MacTxCallback g pid t).g_macTxTimeMap pid = some t
      ∧ (∀ q, q ≠ pid →
          mapFind (MacTxCallback g pid t).g_macTxTimeMap q = mapFind g.g_macTxTimeMap q)
      ∧ (MacTxCallback g pid t).g_phyTxBeginTimeMap = g.g_phyTxBeginTimeMap
      ∧ (MacTxCallback g pid t).g_macAccessDelays = g.g_macAccessDelays)
    ∧ (mapFind (PhyTxBeginCallback g pid txPowerW t).g_phyTxBeginTimeMap pid = some t
      ∧ (∀ q, q ≠ pid →
          mapFind (PhyTxBeginCallback g pid txPowerW t).g_phyTxBeginTimeMap q
            = mapFind g.g_phyTxBeginTimeMap q)
      ∧ (PhyTxBeginCallback g pid txPowerW t).g_macTxTimeMap = g.g_macTxTimeMap
      ∧ (PhyTxBeginCallback g pid txPowerW t).g_macAccessDelays = g.g_macAccessDelays
      ∧ ∀ w, PhyTxBeginCallback g pid w t = PhyTxBeginCallback g pid txPowerW t) := by
  refine ⟨⟨?_, ?_, rfl, rfl⟩, ?_, ?_, rfl, rfl, fun _ => rfl⟩
  · exact mapFind_mapAssign_self _ _ _
  · intro q hq
    exact mapFind_mapAssign_ne _ _ _ _ hq
  · exact mapFind_mapAssign_self _ _ _
  · intro q hq
    exact mapFind_mapAssign_ne _ _ _ _ hq

/-- Witness of C9: with enqueue times recorded for pids 1 and 2, `MacTxCallback(1)`
leaves the enqueue time of pid 2 as it was. -/
theorem timestamp_writes_frame_witness :
    (2 : Nat) ≠ 1 ∧
      mapFind (MacTxCallback ⟨[(1, 5), (2, 6)], [], [], []⟩ 1 9).g_macTxTimeMap 2
        = mapFind [(1, 5), (2, 6)] 2 :=
  ⟨by decide, (timestamp_writes_frame ⟨[(1, 5), (2, 6)], [], [], []⟩ 1 9 0).1.2.1 2 (by decide)⟩

/-- C1. Correlator completeness: from any state in which `pid` has neither an
enqueue time nor a begin time, `MacTxCallback(pid)` at clock reading `t1`, then
`PhyTxBeginCallback(pid)` at `t2`, then `PhyTxEndCallback(pid)` at `t3` extend the
sample sequence by exactly one element, equal to `t2 - t1`, whatever `t3` is. -/
theorem correlator_completeness (g : Globals) (pid : Nat) (txPowerW : ℚ) (t1 t2 t3 : Int)
    (_hmac : mapFind g.g_macTxTimeMap pid = none)
    (_hphy : mapFind g.g_phyTxBeginTimeMap pid = none)
    (h1 : IsNow t1) (h2 : IsNow t2) :
    (runTrace g [(.MacTx pid, t1), (.PhyTxBegin pid txPowerW, t2),
        (.PhyTxEnd pid, t3)]).g_macAccessDelays
      = g.g_macAccessDelays ++ [t2 - t1] := by
  simp only [runTrace, deliver, PhyTxEndCallback, PhyTxBeginCallback, MacTxCallback,
    mapIndex_fst, findD, mapFind_mapAssign_self, Option.getD_some]
  rw [timeSub_of_now t2 t1 h2 h1]

/-- Witness of C1: from the empty state, pid 7 enqueued at tick 10, begun at tick
25 and ended at tick 40 yields the single sample 15. -/
theorem correlator_completeness_witness :
    (runTrace Globals.empty [(.MacTx 7, 10), (.PhyTxBegin 7 0, 25),
        (.PhyTxEnd 7, 40)]).g_macAccessDelays
      = Globals.empty.g_macAccessDelays ++ [25 - 10] :=
  correlator_completeness Globals.empty 7 0 10 25 40 (by decide) (by decide)
    (by decide) (by decide)

/-- C10. `PhyTxEndCallback(pid)` appends exactly one element to the sample
sequence for every state and pid; `MacTxCallback` and `PhyTxBeginCallback` leave
the sequence alone; so after any trace from the empty state the printed number of
transmitted packets is the number of `PhyTxEnd` notifications of the trace. -/
theorem samples_grow_by_one_per_phyTxEnd :
    (∀ (g : Globals) (pid : Nat),
        ∃ d, (PhyTxEndCallback g pid).g_macAccessDelays = g.g_macAccessDelays ++ [d])
    ∧ (∀ (g : Globals) (pid : Nat) (t : Int),
        (MacTxCallback g pid t).g_macAccessDelays = g.g_macAccessDelays)
    ∧ (∀ (g : Globals) (pid : Nat) (w : ℚ) (t : Int),
        (PhyTxBeginCallback g pid w t).g_macAccessDelays = g.g_macAccessDelays)
    ∧ (∀ trace : List (Notification × Int),
        numberOfTransmittedPackets (runTrace Globals.empty trace).g_macAccessDelays
          = countPhyTxEnd trace) := by
  refine ⟨fun g pid => ⟨_, rfl⟩, fun _ _ _ => rfl, fun _ _ _ _ => rfl, ?_⟩
  intro trace
  simp [numberOfTransmittedPackets, runTrace_delays_length, Globals.empty]

/-! ## Statistics -/

/-- C2. Aggregation: the summary of a sample sequence has count equal to its
length, and mean equal to the sum of the samples divided by the count when the
sequence is non-empty and to 0 when it is empty; the empty sequence gives
(0, 0) and the samples 2, 4, 6 give (3, 4). -/
theorem aggregation (delays : List Int) :
    (summary delays).1 = delays.length
    ∧ (summary delays).2
        = (if delays = [] then 0
           else (delays.map (fun d : Int => (d : ℚ))).sum / (delays.length : ℚ))
    ∧ summary [] = (0, 0)
    ∧ summary [2, 4, 6] = (3, 4) := by
  refine ⟨rfl, ?_, ?_, ?_⟩
  · cases delays with
    | nil => simp [summary, meanDelaySec]
    | cons hd tl =>
      simp only [summary, meanDelaySec, sumDelays_eq_sum]
      simp
  · simp [summary, meanDelaySec, numberOfTransmittedPackets]
  · norm_num [summary, numberOfTransmittedPackets, meanDelaySec, sumDelays, GetDouble]

/-- C7. The figure printed as "Mean MAC access delay: ... s" for the samples
2us, 4us, 6us (2000, 4000 and 6000 ticks) is 4000, the mean in ticks, and not
the mean in seconds, 0.000004. -/
theorem meanDelaySec_is_in_ticks :
    meanDelaySec [2000, 4000, 6000] = 4000
    ∧ meanDelaySec [2000, 4000, 6000] ≠ 4 / 1000000 := by
  have h : meanDelaySec [2000, 4000, 6000] = 4000 := by
    norm_num [meanDelaySec, sumDelays, GetDouble]
  refine ⟨h, ?_⟩
  rw [h]
  norm_num

/-! ## `PhyTxEndCallback` on unknown and half-recorded pids -/

/-- C4, as stated, fails: in the empty state pid 7 has no entry in either map, yet
`PhyTxEndCallback(7)` changes both maps and the sample sequence. -/
theorem unknown_pid_changes_state :
    mapFind Globals.empty.g_macTxTimeMap 7 = none
    ∧ mapFind Globals.empty.g_phyTxBeginTimeMap 7 = none
    ∧ (PhyTxEndCallback Globals.empty 7).g_macTxTimeMap = [(7, 0)]
    ∧ (PhyTxEndCallback Globals.empty 7).g_phyTxBeginTimeMap = [(7, 0)]
    ∧ (PhyTxEndCallback Globals.empty 7).g_macAccessDelays = [0]
    ∧ (PhyTxEndCallback Globals.empty 7).g_macTxTimeMap ≠ Globals.empty.g_macTxTimeMap
    ∧ (PhyTxEndCallback Globals.empty 7).g_phyTxBeginTimeMap
        ≠ Globals.empty.g_phyTxBeginTimeMap
    ∧ (PhyTxEndCallback Globals.empty 7).g_macAccessDelays
        ≠ Globals.empty.g_macAccessDelays := by
  decide

/-- C4, amended. For a pid with no entry in either map, `PhyTxEndCallback(pid)`
completes (it is a total function) and inserts the entry `pid ↦ 0` into both maps,
leaves the entries of all other pids as they were, and appends the sample 0. -/
theorem phyTxEnd_unknown_pid (g : Globals) (pid : Nat)
    (hmac : mapFind g.g_macTxTimeMap pid = none)
    (hphy : mapFind g.g_phyTxBeginTimeMap pid = none) :
    (PhyTxEndCallback g pid).g_macTxTimeMap = mapAssign g.g_macTxTimeMap pid 0
    ∧ (PhyTxEndCallback g pid).g_phyTxBeginTimeMap = mapAssign g.g_phyTxBeginTimeMap pid 0
    ∧ mapFind (PhyTxEndCallback g pid).g_macTxTimeMap pid = some 0
    ∧ mapFind (PhyTxEndCallback g pid).g_phyTxBeginTimeMap pid = some 0
    ∧ (∀ q, q ≠ pid →
        mapFind (PhyTxEndCallback g pid).g_macTxTimeMap q = mapFind g.g_macTxTimeMap q
        ∧ mapFind (PhyTxEndCallback g pid).g_phyTxBeginTimeMap q
            = mapFind g.g_phyTxBeginTimeMap q)
    ∧ (PhyTxEndCallback g pid).g_macAccessDelays = g.g_macAccessDelays ++ [0] := by
  have e1 : mapIndex g.g_macTxTimeMap pid = (0, mapAssign g.g_macTxTimeMap pid 0) := by
    simp [mapIndex, hmac]
  have e2 : mapIndex g.g_phyTxBeginTimeMap pid
      = (0, mapAssign g.g_phyTxBeginTimeMap pid 0) := by
    simp [mapIndex, hphy]
  have e3 : timeSub 0 0 = 0 := by decide
  refine ⟨?_, ?_, ?_, ?_, ?_, ?_⟩
  · simp only [PhyTxEndCallback, e1]
  · simp only [PhyTxEndCallback, e2]
  · simp only [PhyTxEndCallback, e1, mapFind_mapAssign_self]
  · simp only [PhyTxEndCallback, e2, mapFind_mapAssign_self]
  · intro q hq
    simp only [PhyTxEndCallback, e1, e2]
    exact ⟨mapFind_mapAssign_ne _ _ _ _ hq, mapFind_mapAssign_ne _ _ _ _ hq⟩
  · simp only [PhyTxEndCallback, e1, e2, e3]

/-- Witness of C4 amended: pid 7 is unknown in a state that knows pid 3 only. -/
theorem phyTxEnd_unknown_pid_witness :
    (PhyTxEndCallback ⟨[(3, 10)], [(3, 12)], [2], []⟩ 7).g_macAccessDelays = [2] ++ [0] :=
  (phyTxEnd_unknown_pid ⟨[(3, 10)], [(3, 12)], [2], []⟩ 7 (by decide) (by decide)).2.2.2.2.2

/-- C5, as stated, fails: with only the enqueue time of pid 1 recorded (5 ticks)
`PhyTxEndCallback(1)` appends `0 - 5`; with only its begin time recorded it appends
`5 - 0`; in both cases the sample sequence and the final mean change. -/
theorem phyTxEnd_missing_timestamp_is_zero :
    (PhyTxEndCallback ⟨[(1, 5)], [], [], []⟩ 1).g_macAccessDelays = [0 - 5]
    ∧ (PhyTxEndCallback ⟨[], [(1, 5)], [], []⟩ 1).g_macAccessDelays = [5 - 0]
    ∧ meanDelaySec (PhyTxEndCallback ⟨[(1, 5)], [], [], []⟩ 1).g_macAccessDelays = -5
    ∧ meanDelaySec (PhyTxEndCallback ⟨[], [(1, 5)], [], []⟩ 1).g_macAccessDelays = 5
    ∧ meanDelaySec (⟨[(1, 5)], [], [], []⟩ : Globals).g_macAccessDelays = 0 := by
  have a : (PhyTxEndCallback ⟨[(1, 5)], [], [], []⟩ 1).g_macAccessDelays = [0 - 5] := by
    decide
  have b : (PhyTxEndCallback ⟨[], [(1, 5)], [], []⟩ 1).g_macAccessDelays = [5 - 0] := by
    decide
  refine ⟨a, b, ?_, ?_, ?_⟩
  · rw [a]; norm_num [meanDelaySec, sumDelays, GetDouble]
  · rw [b]; norm_num [meanDelaySec, sumDelays, GetDouble]
  · simp [meanDelaySec]

/-- C5, amended. For a pid with exactly one timestamp recorded, a clock reading
`t`, `PhyTxEndCallback(pid)` appends exactly one sample, computed with zero in place
of the missing timestamp: `0 - t` when only the enqueue time is recorded, `t - 0`
when only the begin time is; the missing entry is inserted with value zero. -/
theorem phyTxEnd_half_recorded (g : Globals) (pid : Nat) (t : Int) (ht : IsNow t) :
    (mapFind g.g_macTxTimeMap pid = some t → mapFind g.g_phyTxBeginTimeMap pid = none →
        (PhyTxEndCallback g pid).g_macAccessDelays = g.g_macAccessDelays ++ [0 - t]
        ∧ mapFind (PhyTxEndCallback g pid).g_phyTxBeginTimeMap pid = some 0)
    ∧ (mapFind g.g_macTxTimeMap pid = none → mapFind g.g_phyTxBeginTimeMap pid = some t →
        (PhyTxEndCallback g pid).g_macAccessDelays = g.g_macAccessDelays ++ [t - 0]
        ∧ mapFind (PhyTxEndCallback g pid).g_macTxTimeMap pid = some 0) := by
  have h0 : IsNow 0 := by decide
  constructor
  · intro hm hp
    constructor
    · simp only [PhyTxEndCallback, mapIndex_fst, findD, hm, hp, Option.getD_some,
        Option.getD_none]
      rw [timeSub_of_now 0 t h0 ht]
    · simp only [PhyTxEndCallback, mapFind_mapIndex_self, findD, hp, Option.getD_none]
  · intro hm hp
    constructor
    · simp only [PhyTxEndCallback, mapIndex_fst, findD, hm, hp, Option.getD_some,
        Option.getD_none]
      rw [timeSub_of_now t 0 ht h0]
    · simp only [PhyTxEndCallback, mapFind_mapIndex_self, findD, hm, Option.getD_none]

/-- Witness of C5 amended: only the enqueue time of pid 1 is recorded, 5 ticks. -/
theorem phyTxEnd_half_recorded_witness :
    IsNow 5
    ∧ (PhyTxEndCallback ⟨[(1, 5)], [], [3], []⟩ 1).g_macAccessDelays = [3] ++ [0 - 5] :=
  ⟨by decide,
    ((phyTxEnd_half_recorded ⟨[(1, 5)], [], [3], []⟩ 1 5 (by decide)).1 (by decide)
      (by decide)).1⟩

/-! ## Traffic generator -/

/-- C8, as stated, fails: run with a `Send` that returns -1 and with one that
returns 0, in the same state, `BroadcastPacket` writes the same output, the one
line "Node 3 sent a packet at 0 s". -/
theorem broadcastPacket_send_failure_same_output :
    (exampleFramework (-1)).Send 0 ⟨3⟩ 1000 < 0
    ∧ 0 ≤ (exampleFramework 0).Send 0 ⟨3⟩ 1000
    ∧ (BroadcastPacket (exampleFramework (-1)) ⟨0, [], [], 0, 0⟩ ⟨3⟩ 0 1000).stdout
        = (BroadcastPacket (exampleFramework 0) ⟨0, [], [], 0, 0⟩ ⟨3⟩ 0 1000).stdout
    ∧ (BroadcastPacket (exampleFramework (-1)) ⟨0, [], [], 0, 0⟩ ⟨3⟩ 0 1000).stdout
        = [⟨3, 0⟩] := by
  refine ⟨by decide, by decide, rfl, ?_⟩
  simp [BroadcastPacket, Schedule, exampleFramework]

/-- C8, amended. `BroadcastPacket` discards the value returned by `Send`: whatever
`Send` returns, the execution appends to the output the single line
"Node <id> sent a packet at <t> s" and nothing else, and the whole resulting
state is the same as with any other `Send`. -/
theorem broadcastPacket_output_ignores_send (fw : Framework)
    (send2 : Nat → Socket → Nat → Int) (sim : Sim) (socket : Socket) (rand : RandRef)
    (packetSize : Nat) :
    (BroadcastPacket fw sim socket rand packetSize).stdout
        = sim.stdout ++ [⟨socket.node, fw.GetSeconds sim.now⟩]
    ∧ BroadcastPacket { fw with Send := send2 } sim socket rand packetSize
        = BroadcastPacket fw sim socket rand packetSize :=
  ⟨rfl, rfl⟩

theorem countP_eraseIdx_add (p : Event → Bool) (l : List Event) (i : Nat) (e : Event)
    (h : l.get? i = some e) :
    (l.eraseIdx i).countP p + (if p e then 1 else 0) = l.countP p := by
  induction l generalizing i with
  | nil => simp at h
  | cons hd tl ih =>
    cases i with
    | zero =>
      simp only [List.get?_cons_zero, Option.some.injEq] at h
      subst h
      simp [List.countP_cons]
    | succ j =>
      simp only [List.get?_cons_succ] at h
      have := ih j h
      simp only [List.eraseIdx_cons_succ, List.countP_cons]
      omega

theorem pendingFor_Schedule (sim : Sim) (delay : Int) (socket : Socket) (rand : RandRef)
    (packetSize : Nat) (q : Socket) :
    pendingFor (Schedule sim delay socket rand packetSize) q
      = pendingFor sim q + (if socket = q then 1 else 0) := by
  simp [pendingFor, Schedule, List.countP_append, List.countP_cons]

theorem pendingFor_BroadcastPacket (fw : Framework) (sim : Sim) (socket : Socket)
    (rand : RandRef) (packetSize : Nat) (q : Socket) :
    pendingFor (BroadcastPacket fw sim socket rand packetSize) q
      = pendingFor sim q + (if socket = q then 1 else 0) := by
  unfold BroadcastPacket
  rw [pendingFor_Schedule]
  rfl

theorem pendingFor_fire (fw : Framework) (sim : Sim) (i : Nat) (q : Socket) :
    pendingFor (fire fw sim i) q = pendingFor sim q := by
  unfold fire
  cases h : sim.pending.get? i with
  | none => rfl
  | some e =>
    simp only [pendingFor_BroadcastPacket]
    have := countP_eraseIdx_add (fun e => decide (e.socket = q)) sim.pending i e h
    simp only [decide_eq_true_eq] at this
    simpa [pendingFor] using this

theorem pendingFor_runEvents (fw : Framework) (choices : List Nat) (sim : Sim) (q : Socket) :
    pendingFor (runEvents fw sim choices) q = pendingFor sim q := by
  induction choices generalizing sim with
  | nil => rfl
  | cons i rest ih => simp only [runEvents, ih, pendingFor_fire]

theorem pendingFor_scheduleFirst (fw : Framework) (rand : RandRef) (packetSize : Nat)
    (sockets : List Socket) (sim : Sim) (q : Socket) :
    pendingFor (scheduleFirst fw rand packetSize sim sockets) q
      = pendingFor sim q + sockets.count q := by
  induction sockets generalizing sim with
  | nil => simp [scheduleFirst]
  | cons hd tl ih =>
    simp only [scheduleFirst, ih, pendingFor_Schedule, List.count_cons]
    have : pendingFor { sim with draws := sim.draws + 1 } q = pendingFor sim q := rfl
    rw [this]
    by_cases hq : hd = q
    · simp [hq]; omega
    · simp [hq]

theorem count_sendSockets (n : Nat) (q : Socket) (hq : q ∈ sendSockets n) :
    (sendSockets n).count q = 1 := by
  apply List.count_eq_one_of_mem _ hq
  unfold sendSockets
  apply List.Nodup.map _ (List.nodup_range n)
  intro a b hab
  exact congrArg Socket.node hab

/-- C6. Every execution of `BroadcastPacket(socket, rand, packetSize)`, whatever
`Send` returns, inserts exactly one event into the pending set: `BroadcastPacket`
with the same socket, rand and packetSize, at the delay just drawn from rand. So
after the scheduling loop of `main` and after every executed event, each
socket of `sendSockets` has exactly one pending event. -/
theorem generator_rearms_once :
    (∀ (fw : Framework) (sim : Sim) (socket : Socket) (rand : RandRef) (packetSize : Nat),
        (BroadcastPacket fw sim socket rand packetSize).pending
          = sim.pending
            ++ [⟨sim.now, fw.Seconds (fw.GetValue sim.draws rand), socket, rand, packetSize⟩])
    ∧ (∀ (fw : Framework) (n packetSize : Nat) (choices : List Nat) (socket : Socket),
        socket ∈ sendSockets n →
          pendingFor (runEvents fw (mainSetup fw n packetSize) choices) socket = 1) := by
  refine ⟨fun _ _ _ _ _ => rfl, ?_⟩
  intro fw n packetSize choices socket hmem
  rw [pendingFor_runEvents]
  unfold mainSetup
  rw [pendingFor_scheduleFirst, count_sendSockets n socket hmem]
  simp [pendingFor]

/-- Witness of C6: two nodes, every `Send` failing; after the events at positions
0, 1, 0 have run, the socket of node 0 has one pending event. -/
theorem generator_rearms_once_witness :
    (⟨0⟩ : Socket) ∈ sendSockets 2
    ∧ pendingFor
        (runEvents (exampleFramework (-1)) (mainSetup (exampleFramework (-1)) 2 1000) [0, 1, 0])
        ⟨0⟩ = 1 :=
  ⟨by decide, generator_rearms_once.2 (exampleFramework (-1)) 2 1000 [0, 1, 0] ⟨0⟩ (by decide)⟩

/-! ## Sign of the samples -/

theorem mapFind_mapAssign (m : TimeMap) (k q : Nat) (v : Int) :
    mapFind (mapAssign m k v) q = if q = k then some v else mapFind m q := by
  by_cases hq : q = k
  · subst hq
    simp [mapFind_mapAssign_self]
  · simp [hq, mapFind_mapAssign_ne _ _ _ _ hq]

theorem findD_bounds (m : TimeMap) (t0 : Int) (h0 : 0 ≤ t0)
    (hle : ∀ pid v, mapFind m pid = some v → 0 ≤ v ∧ v ≤ t0) (pid : Nat) :
    0 ≤ findD m pid ∧ findD m pid ≤ t0 := by
  unfold findD
  cases h : mapFind m pid with
  | none => exact ⟨le_refl 0, h0⟩
  | some v => exact hle pid v h

theorem traceInv_empty : TraceInv Globals.empty [] 0 where
  clock := by decide
  mac_le := by intro pid v h; simp [Globals.empty, mapFind] at h
  phy_le := by intro pid v h; simp [Globals.empty, mapFind] at h
  ordered := by intro pid _; simp [Globals.empty, findD, mapFind]
  nonneg := by intro d h; simp [Globals.empty] at h

theorem traceInv_MacTx (g : Globals) (w : List Nat) (t0 t : Int) (pid : Nat)
    (inv : TraceInv g w t0) (hle : t0 ≤ t) (hlt : t < 9223372036854775808) :
    TraceInv (MacTxCallback g pid t) (pid :: w) t where
  clock := ⟨le_trans inv.clock.1 hle, hlt⟩
  mac_le := by
    intro q v h
    simp only [MacTxCallback, mapFind_mapAssign] at h
    have h0 := inv.clock.1
    by_cases hq : q = pid
    · simp only [hq, if_true, Option.some.injEq] at h
      omega
    · simp only [hq, if_false] at h
      have := inv.mac_le q v h
      omega
  phy_le := by
    intro q v h
    have := inv.phy_le q v h
    omega
  ordered := by
    intro q hq
    simp only [List.mem_cons, not_or] at hq
    have := inv.ordered q hq.2
    simpa [MacTxCallback, findD, mapFind_mapAssign, hq.1] using this
  nonneg := inv.nonneg

theorem traceInv_PhyTxBegin (g : Globals) (w : List Nat) (t0 t : Int) (pid : Nat)
    (txPowerW : ℚ) (inv : TraceInv g w t0) (hle : t0 ≤ t) (hlt : t < 9223372036854775808) :
    TraceInv (PhyTxBeginCallback g pid txPowerW t) (w.filter (fun q => q != pid)) t where
  clock := ⟨le_trans inv.clock.1 hle, hlt⟩
  mac_le := by
    intro q v h
    have := inv.mac_le q v h
    omega
  phy_le := by
    intro q v h
    simp only [PhyTxBeginCallback, mapFind_mapAssign] at h
    have h0 := inv.clock.1
    by_cases hq : q = pid
    · simp only [hq, if_true, Option.some.injEq] at h
      omega
    · simp only [hq, if_false] at h
      have := inv.phy_le q v h
      omega
  ordered := by
    intro q hq
    by_cases hqp : q = pid
    · subst hqp
      have := (findD_bounds g.g_macTxTimeMap t0 inv.clock.1 inv.mac_le q).2
      simp only [PhyTxBeginCallback, findD, mapFind_mapAssign_self, Option.getD_some]
      unfold findD at this
      omega
    · have hw : q ∉ w := by
        intro hmem
        apply hq
        simp [List.mem_filter, hmem, hqp]
      have := inv.ordered q hw
      simpa [PhyTxBeginCallback, findD, mapFind_mapAssign, hqp] using this
  nonneg := inv.nonneg

theorem traceInv_PhyTxEnd (g : Globals) (w : List Nat) (t0 t : Int) (pid : Nat)
    (inv : TraceInv g w t0) (hle : t0 ≤ t) (hlt : t < 9223372036854775808)
    (hpid : pid ∉ w) :
    TraceInv (PhyTxEndCallback g pid) w t where
  clock := ⟨le_trans inv.clock.1 hle, hlt⟩
  mac_le := by
    intro q v h
    simp only [PhyTxEndCallback] at h
    by_cases hq : q = pid
    · subst hq
      rw [mapFind_mapIndex_self] at h
      simp only [Option.some.injEq] at h
      have := findD_bounds g.g_macTxTimeMap t0 inv.clock.1 inv.mac_le q
      omega
    · rw [mapFind_mapIndex_ne _ _ _ hq] at h
      have := inv.mac_le q v h
      omega
  phy_le := by
    intro q v h
    simp only [PhyTxEndCallback] at h
    by_cases hq : q = pid
    · subst hq
      rw [mapFind_mapIndex_self] at h
      simp only [Option.some.injEq] at h
      have := findD_bounds g.g_phyTxBeginTimeMap t0 inv.clock.1 inv.phy_le q
      omega
    · rw [mapFind_mapIndex_ne _ _ _ hq] at h
      have := inv.phy_le q v h
      omega
  ordered := by
    intro q hq
    simp only [PhyTxEndCallback, findD_mapIndex]
    exact inv.ordered q hq
  nonneg := by
    intro d hd
    simp only [PhyTxEndCallback, List.mem_append, List.mem_singleton, mapIndex_fst] at hd
    rcases hd with hd | hd
    · exact inv.nonneg d hd
    · have hm := findD_bounds g.g_macTxTimeMap t0 inv.clock.1 inv.mac_le pid
      have hp := findD_bounds g.g_phyTxBeginTimeMap t0 inv.clock.1 inv.phy_le pid
      have ho := inv.ordered pid hpid
      have hc := inv.clock.2
      rw [timeSub_of_now _ _ ⟨hp.1, by omega⟩ ⟨hm.1, by omega⟩] at hd
      omega

theorem runTrace_nonneg (trace : List (Notification × Int)) :
    ∀ (g : Globals) (w : List Nat) (t0 : Int), TraceInv g w t0 →
      clockReadings t0 trace = true → beginFollowsEnqueue w trace = true →
      ∀ d ∈ (runTrace g trace).g_macAccessDelays, 0 ≤ d := by
  induction trace with
  | nil =>
    intro g w t0 inv _ _
    exact inv.nonneg
  | cons hd tl ih =>
    intro g w t0 inv hclock horder
    obtain ⟨n, t⟩ := hd
    simp only [clockReadings, Bool.and_eq_true, decide_eq_true_eq] at hclock
    obtain ⟨⟨hle, hlt⟩, hrest⟩ := hclock
    cases n with
    | MacTx pid =>
      simp only [beginFollowsEnqueue] at horder
      exact ih _ _ _ (traceInv_MacTx g w t0 t pid inv hle hlt) hrest horder
    | PhyTxBegin pid txPowerW =>
      simp only [beginFollowsEnqueue] at horder
      exact ih _ _ _ (traceInv_PhyTxBegin g w t0 t pid txPowerW inv hle hlt) hrest horder
    | PhyTxEnd pid =>
      simp only [beginFollowsEnqueue, Bool.and_eq_true, Bool.not_eq_true_eq_eq_false,
        Bool.not_eq_true] at horder
      obtain ⟨hnot, horder⟩ := horder
      have hpid : pid ∉ w := by
        intro hmem
        have : w.contains pid = true := by simpa using hmem
        rw [this] at hnot
        exact Bool.noConfusion hnot
      exact ih _ _ _ (traceInv_PhyTxEnd g w t0 t pid inv hle hlt hpid) hrest horder

/-- C3, as stated, fails: two traces from the empty state, delivered at
non-negative, non-decreasing times, whose `PhyTxEndCallback` appends a negative
sample: a `PhyTxEnd` with no `PhyTxBegin` (sample -5), and a `PhyTxBegin` that
precedes the `MacTx` (sample -1). -/
theorem negative_delay_sample :
    clockReadings 0 [(.MacTx 1, 5), (.PhyTxEnd 1, 6)] = true
    ∧ (runTrace Globals.empty [(.MacTx 1, 5), (.PhyTxEnd 1, 6)]).g_macAccessDelays = [-5]
    ∧ clockReadings 0 [(.PhyTxBegin 1 0, 1), (.MacTx 1, 2), (.PhyTxEnd 1, 3)] = true
    ∧ (runTrace Globals.empty
        [(.PhyTxBegin 1 0, 1), (.MacTx 1, 2), (.PhyTxEnd 1, 3)]).g_macAccessDelays = [-1]
    ∧ (-5 : Int) < 0 ∧ (-1 : Int) < 0 := by
  decide

/-- C3, amended. For every trace from the empty state whose notification times
are clock readings in non-decreasing order and in which every `PhyTxEnd(pid)`
finds the latest earlier `MacTx(pid)`, if any, followed by a `PhyTxBegin(pid)`,
every sample appended by `PhyTxEndCallback` is non-negative. -/
theorem delay_samples_nonneg (trace : List (Notification × Int))
    (hclock : clockReadings 0 trace = true)
    (horder : beginFollowsEnqueue [] trace = true) :
    ∀ d ∈ (runTrace Globals.empty trace).g_macAccessDelays, 0 ≤ d :=
  runTrace_nonneg trace Globals.empty [] 0 traceInv_empty hclock horder

/-- Witness of C3 amended: pid 1 goes through enqueue, begin and end; pid 2 is
only ever seen at its end. -/
theorem delay_samples_nonneg_witness :
    clockReadings 0
        [(.MacTx 1, 5), (.PhyTxBegin 1 0, 8), (.PhyTxEnd 1, 9), (.PhyTxEnd 2, 9)] = true
    ∧ beginFollowsEnqueue []
        [(.MacTx 1, 5), (.PhyTxBegin 1 0, 8), (.PhyTxEnd 1, 9), (.PhyTxEnd 2, 9)] = true
    ∧ (runTrace Globals.empty
        [(.MacTx 1, 5), (.PhyTxBegin 1 0, 8), (.PhyTxEnd 1, 9),
          (.PhyTxEnd 2, 9)]).g_macAccessDelays = [3, 0]
    ∧ (0 : Int) ≤ 3 :=
  ⟨by decide, by decide, by decide,
    delay_samples_nonneg
      [(.MacTx 1, 5), (.PhyTxBegin 1 0, 8), (.PhyTxEnd 1, 9), (.PhyTxEnd 2, 9)]
      (by decide) (by decide) 3 (by decide)⟩

end LinearTopology
